import Mathlib

/-!
cammodule: frame lifecycle and YUV422 to RGB888 conversion.

A shallow embedding of `cammodule.c`: the colour conversion `YUV422toRGB888`,
the JPEG row-feeding routine `jpegWrite` and the capture entry points
`cammodule_getframe` / `cammodule_saveframe`, followed by the properties
established for them.

Conventions of the embedding.

* A C `double` is the rational number it denotes.  Every arithmetic operation
  is the exact operation followed by `roundToDouble`, rounding to nearest with
  ties to even at 53 significant bits (IEEE 754 binary64, each operation
  rounded on its own).  All values the converter forms are far from the
  overflow threshold, so infinities and NaN do not arise.
* `src` is the memory seen through the pointer `src`: `src k` is the byte at
  `src + k`.  The frame buffer is its first `width*height*2` bytes; the
  embedding records every offset that is dereferenced, so that reads outside
  the buffer are visible.
* `width` and `height` are natural numbers, `int` and `unsigned int` have 32
  bits.  The `int` product `width*height*3` of `cammodule_saveframe` is
  undefined from `2^31` on, and the `unsigned int` row offset of `jpegWrite`
  is taken modulo `2^32`.  The size `height*width*2` handed to `memcpy` in
  `cammodule_getframe` is the same number as long as it fits an `int`.
* Calls that leave the translation unit (`get_camera_frame`, `fopen`, the
  libjpeg entry points, ...) are recorded as events of a trace, in program
  order; their results come from a `World`.  A call that reaches an operation
  whose behaviour C leaves undefined is taken not to return.
-/

namespace Cammodule

/-! ## binary64 arithmetic -/

/-- Number of binary digits of `n`, by repeated halving (`fuel` bounds the
number of halvings). -/
def bitLenAux : Nat → Nat → Nat
  | 0, _ => 0
  | fuel + 1, n => if n = 0 then 0 else bitLenAux fuel (n / 2) + 1

/-- Number of binary digits of `n`; `bitLen 0 = 0`. -/
def bitLen (n : Nat) : Nat := bitLenAux n n

/-- The binade of a non-zero rational: the `e` with `2^e ≤ |q| < 2^(e+1)`. -/
def ilog2 (q : ℚ) : Int :=
  let e : Int := (bitLen q.num.natAbs : Int) - (bitLen q.den : Int)
  if (2 : ℚ) ^ e ≤ |q| then e else e - 1

/-- Rounding of an exact result to binary64: nearest value with a 53-bit
significand, ties to the even significand; below the normal range the spacing
stays that of the smallest normal binade. -/
def roundToDouble (q : ℚ) : ℚ :=
  if q = 0 then 0 else
    let e : Int := max (ilog2 q) (-1022)
    let ulp : ℚ := (2 : ℚ) ^ (e - 52)
    let m : ℚ := |q| / ulp
    let f : Int := ⌊m⌋
    let n : Int :=
      if m - f < 1 / 2 then f
      else if 1 / 2 < m - f then f + 1
      else if f % 2 = 0 then f else f + 1
    (if q < 0 then -1 else 1) * (n : ℚ) * ulp

/-- Addition of doubles. -/
def fadd (a b : ℚ) : ℚ := roundToDouble (a + b)

/-- Subtraction of doubles. -/
def fsub (a b : ℚ) : ℚ := roundToDouble (a - b)

/-- Multiplication of doubles. -/
def fmul (a b : ℚ) : ℚ := roundToDouble (a * b)

/-- The literal `1.402`. -/
def c1402 : ℚ := roundToDouble (1402 / 1000)

/-- The literal `0.344`. -/
def c0344 : ℚ := roundToDouble (344 / 1000)

/-- The literal `0.714`. -/
def c0714 : ℚ := roundToDouble (714 / 1000)

/-- The literal `1.772`. -/
def c1772 : ℚ := roundToDouble (1772 / 1000)

/-- The definition `CLIP(x) ( (x)>=0xFF ? 0xFF : ( (x) <= 0x00 ? 0x00 : (x) ) )`
at a `double` argument; the result is a `double`. -/
def CLIP (x : ℚ) : ℚ := if x ≥ 255 then 255 else (if x ≤ 0 then 0 else x)

/-- Conversion of a `double` to `unsigned char`: the fractional part is
discarded (truncation toward zero) and the integer is taken as a byte. -/
def toUChar (x : ℚ) : Nat :=
  ((if 0 ≤ x then ⌊x⌋ else ⌈x⌉) % 256).toNat

/-- The expression `(double)*py + 1.402*((double)*pv-128.0)`. -/
def exprR (y v : Nat) : ℚ := fadd y (fmul c1402 (fsub v 128))

/-- The expression
`(double)*py - 0.344*((double)*pu-128.0) - 0.714*((double)*pv-128.0)`. -/
def exprG (y u v : Nat) : ℚ :=
  fsub (fsub y (fmul c0344 (fsub u 128))) (fmul c0714 (fsub v 128))

/-- The expression `(double)*py + 1.772*((double)*pu-128.0)`. -/
def exprB (y u : Nat) : ℚ := fadd y (fmul c1772 (fsub u 128))

/-! ## YUV422toRGB888 -/

/-- One pass through the body of the inner loop: the three `src` offsets that
are dereferenced, the `dst` offset of the first of the three stores
`*tmp++ = ...`, and the three bytes stored. -/
structure Pixel where
  py : Nat
  pu : Nat
  pv : Nat
  tmp : Nat
  r : Nat
  g : Nat
  b : Nat
deriving DecidableEq

/-- The local variables `py`, `pu`, `pv`, `tmp` (as offsets from `src`, `src`,
`src` and `dst`) together with the passes made so far. -/
structure ConvState where
  py : Nat
  pu : Nat
  pv : Nat
  tmp : Nat
  done : List Pixel

/-- The three statements `*tmp++ = CLIP(...);` with `py`, `pu`, `pv`, `tmp` at
the given offsets. -/
def storePixel (src : Nat → Nat) (py pu pv tmp : Nat) : Pixel :=
  { py := py, pu := pu, pv := pv, tmp := tmp
    r := toUChar (CLIP (exprR (src py) (src pv)))
    g := toUChar (CLIP (exprG (src py) (src pu) (src pv)))
    b := toUChar (CLIP (exprB (src py) (src pu))) }

/-- Body of `for (column = 0; column < width; ++column)`. -/
def convBody (src : Nat → Nat) (s : ConvState) (column : Nat) : ConvState :=
  let advance : Bool := (column &&& 1) == 1
  { py := s.py + 2
    pu := if advance then s.pu + 4 else s.pu
    pv := if advance then s.pv + 4 else s.pv
    tmp := s.tmp + 3
    done := s.done ++ [storePixel src s.py s.pu s.pv s.tmp] }

/-- Body of `for (line = 0; line < height; ++line)`: the inner loop. -/
def convLine (width : Nat) (src : Nat → Nat) (s : ConvState) (_line : Nat) : ConvState :=
  (List.range width).foldl (convBody src) s

/-- The function `YUV422toRGB888(width, height, src, dst)`: the passes through
the inner loop body, in program order. -/
def YUV422toRGB888 (width height : Nat) (src : Nat → Nat) : List Pixel :=
  ((List.range height).foldl (convLine width src)
    { py := 0, pu := 1, pv := 3, tmp := 0, done := [] }).done

/-- The `src` offsets dereferenced by the passes, in program order. -/
def loads (ps : List Pixel) : List Nat :=
  ps.flatMap fun p => [p.py, p.pu, p.pv]

/-- The `dst` stores made by the passes, in program order: offset and byte. -/
def stores (ps : List Pixel) : List (Nat × Nat) :=
  ps.flatMap fun p => [(p.tmp, p.r), (p.tmp + 1, p.g), (p.tmp + 2, p.b)]

/-- The RGB buffer after the conversion, read off the stores (they go to
consecutive offsets from 0, see `stores`). -/
def rgb (ps : List Pixel) : List Nat :=
  ps.flatMap fun p => [p.r, p.g, p.b]

/-! ## The world outside the translation unit -/

/-- An output file name (the `char *` handed to `cammodule_saveframe`). -/
abbrev Path := Nat

/-- A call that leaves `cammodule.c`, or an access to the driver's frame buffer
or to the RGB buffer. -/
inductive Event where
  | init_camera (ret : Int)
  | start_camera (ret : Int)
  | close_camera (ret : Int)
  | get_camera_frame (ret : Int)
  | put_camera_frame (buf_no : Int)
  | load (buf_no : Int) (offset : Nat)
  | malloc (size : Nat) (ok : Bool)
  | store (offset : Nat) (byte : Nat)
  | fopen (path : Path) (ok : Bool)
  | printf_fopen_error
  | jpeg_std_error
  | jpeg_create_compress
  | jpeg_stdio_dest (outfile_ok : Bool)
  | jpeg_set_defaults
  | jpeg_set_quality (quality : Nat)
  | jpeg_start_compress
  | jpeg_write_scanlines (row_offset : Nat) (num_lines : Nat)
  | jpeg_finish_compress
  | jpeg_destroy_compress
  | fclose (outfile_ok : Bool)
deriving DecidableEq

/-- Results of the calls that leave `cammodule.c`.  `get_camera_frame k` is the
value returned by the call of `get_camera_frame` that follows `k` earlier ones,
`userptr k buf_no` is the memory behind `capinfo.userptr[buf_no]` during that
capture, `malloc k size` tells whether `malloc(size)` in that capture yields a
buffer, `fopen path` tells whether `fopen(path, "wb")` yields a stream, and
`jpeg_write_scanlines n` is the value of `cinfo.next_scanline` after
`jpeg_write_scanlines(&cinfo, row_pointer, 1)` is called with
`cinfo.next_scanline = n`. -/
structure World where
  init_camera : Int
  start_camera : Int
  close_camera : Int
  get_camera_frame : Nat → Int
  userptr : Nat → Int → Nat → Nat
  malloc : Nat → Nat → Bool
  fopen : Path → Bool
  jpeg_write_scanlines : Nat → Nat

/-- How a call ended.  `returned value events`: it made `events` and returned
`value`.  `undefined events`: after `events` it reached an operation whose
behaviour C leaves undefined (an `int` overflow, a store through a null
pointer, `fclose` of a null stream) and did not return. -/
inductive Outcome (α : Type) where
  | returned (value : α) (events : List Event)
  | undefined (events : List Event)
deriving DecidableEq

/-- The file-scope variables `capinfo.width`, `capinfo.height` and
`jpegFilename`, and the number of frames requested from the driver so far. -/
structure State where
  width : Nat
  height : Nat
  jpegFilename : Option Path
  frames : Nat
deriving DecidableEq

/-- The static `jpegQuality`. -/
def jpegQuality : Nat := 70

/-- The loop `while (cinfo.next_scanline < cinfo.image_height)` of `jpegWrite`,
started with `cinfo.next_scanline = next_scanline`: the calls
`jpeg_write_scanlines(&cinfo, row_pointer, 1)` it makes, each with the offset of
`row_pointer[0]` in `img`, or `none` when the loop is still running after `fuel`
passes through its body.  The offset
`cinfo.next_scanline * cinfo.image_width * cinfo.input_components` is computed
in `unsigned int`, that is modulo `2^32`. -/
def feedLoop (W : World) (image_width image_height input_components : Nat) :
    (fuel : Nat) → (next_scanline : Nat) → Option (List Event)
  | 0, next_scanline => if next_scanline < image_height then none else some []
  | fuel + 1, next_scanline =>
    if next_scanline < image_height then
      (feedLoop W image_width image_height input_components fuel
          (W.jpeg_write_scanlines next_scanline)).map
        (Event.jpeg_write_scanlines
          (next_scanline * image_width * input_components % 2 ^ 32) 1 :: ·)
    else some []

/-- The function `jpegWrite(img)`, reading `capinfo.width`, `capinfo.height`
and `jpegFilename`; `jpeg_start_compress` leaves `cinfo.next_scanline = 0`.
When `fopen` yields no stream the function prints its message and goes on with
the null stream; the library calls are recorded in program order up to
`fclose(outfile)`, which has no defined behaviour for a null stream.  The
result is `none` when the feeding loop is still running after `fuel` passes. -/
def jpegWrite (W : World) (fuel : Nat) (width height : Nat) (jpegFilename : Path) :
    Option (Outcome Unit) :=
  let outfile : Bool := W.fopen jpegFilename
  (feedLoop W width height 3 fuel 0).map fun feed =>
    let events : List Event :=
      [Event.fopen jpegFilename outfile]
        ++ (if !outfile then [Event.printf_fopen_error] else [])
        ++ [Event.jpeg_std_error, Event.jpeg_create_compress, Event.jpeg_stdio_dest outfile,
            Event.jpeg_set_defaults, Event.jpeg_set_quality jpegQuality,
            Event.jpeg_start_compress]
        ++ feed
        ++ [Event.jpeg_finish_compress, Event.jpeg_destroy_compress, Event.fclose outfile]
    if outfile then Outcome.returned () events else Outcome.undefined events

/-- The function `cammodule_init(arg)`. -/
def cammodule_init (W : World) (s : State) (width height : Nat) : Int × State × List Event :=
  (if W.init_camera = 0 then 0 else 1,
   { s with width := width, height := height },
   [Event.init_camera W.init_camera])

/-- The function `cammodule_start()`. -/
def cammodule_start (W : World) (s : State) : Int × State × List Event :=
  (if W.start_camera = 0 then 0 else 1, s, [Event.start_camera W.start_camera])

/-- The function `cammodule_stop()`. -/
def cammodule_stop (W : World) (s : State) : Int × State × List Event :=
  (if W.close_camera = 0 then 0 else 1, s, [Event.close_camera W.close_camera])

/-- The function `cammodule_getframe(data)`: the return value, the bytes copied
to `data`, the state and the events. -/
def cammodule_getframe (W : World) (s : State) : Int × List Nat × State × List Event :=
  let buf_no : Int := W.get_camera_frame s.frames
  let srcPlane : Nat → Nat := W.userptr s.frames buf_no
  let copied : List Nat := List.range (s.height * s.width * 2)
  (0, copied.map srcPlane, { s with frames := s.frames + 1 },
   [Event.get_camera_frame buf_no]
     ++ copied.map (Event.load buf_no)
     ++ [Event.put_camera_frame buf_no])

/-- The accesses of one pass through the conversion's loop body, in program
order. -/
def pixelEvents (buf_no : Int) (p : Pixel) : List Event :=
  [Event.load buf_no p.py, Event.load buf_no p.pv, Event.store p.tmp p.r,
   Event.load buf_no p.py, Event.load buf_no p.pu, Event.load buf_no p.pv,
   Event.store (p.tmp + 1) p.g,
   Event.load buf_no p.py, Event.load buf_no p.pu, Event.store (p.tmp + 2) p.b]

/-- The function `cammodule_saveframe(fileName)`: how the call ends, with the
return value and the state when it returns, or `none` when the feeding loop of
`jpegWrite` is still running after `fuel` passes.  The `int` product
`width*height*3` overflows from `2^31` on; the result of `malloc` is not
tested, so with a null `dst` the first store of the conversion, which follows
the reads of `*py` and `*pv`, goes through a null pointer. -/
def cammodule_saveframe (W : World) (fuel : Nat) (s : State) (fileName : Path) :
    Option (Outcome (Int × State)) :=
  let buf_no : Int := W.get_camera_frame s.frames
  let srcPlane : Nat → Nat := W.userptr s.frames buf_no
  if 2 ^ 31 ≤ s.width * s.height * 3 then
    some (Outcome.undefined [Event.get_camera_frame buf_no])
  else
    let dst : Bool := W.malloc s.frames (s.width * s.height * 3)
    if dst = false ∧ 0 < s.width * s.height then
      some (Outcome.undefined
        [Event.get_camera_frame buf_no, Event.malloc (s.width * s.height * 3) dst,
          Event.load buf_no 0, Event.load buf_no 3])
    else
      let converted : List Pixel := YUV422toRGB888 s.width s.height srcPlane
      let before : List Event :=
        [Event.get_camera_frame buf_no, Event.malloc (s.width * s.height * 3) dst]
          ++ converted.flatMap (pixelEvents buf_no)
      match jpegWrite W fuel s.width s.height fileName with
      | none => none
      | some (Outcome.undefined written) => some (Outcome.undefined (before ++ written))
      | some (Outcome.returned _ written) =>
        some (Outcome.returned
          (0, { s with jpegFilename := some fileName, frames := s.frames + 1 })
          (before ++ written ++ [Event.put_camera_frame buf_no]))

/-- A call of the module's interface. -/
inductive Call where
  | init (width height : Nat)
  | start
  | stop
  | getframe
  | saveframe (fileName : Path)
deriving DecidableEq

/-- Whether the call is a capture call. -/
def Call.isCapture : Call → Bool
  | Call.getframe => true
  | Call.saveframe _ => true
  | _ => false

/-- One call: how it ends, with its return value and the state after it. -/
def step (W : World) (fuel : Nat) (s : State) : Call → Option (Outcome (Int × State))
  | Call.init width height =>
    let out := cammodule_init W s width height
    some (Outcome.returned (out.1, out.2.1) out.2.2)
  | Call.start =>
    let out := cammodule_start W s
    some (Outcome.returned (out.1, out.2.1) out.2.2)
  | Call.stop =>
    let out := cammodule_stop W s
    some (Outcome.returned (out.1, out.2.1) out.2.2)
  | Call.getframe =>
    let out := cammodule_getframe W s
    some (Outcome.returned (out.1, out.2.2.1) out.2.2.2)
  | Call.saveframe fileName => cammodule_saveframe W fuel s fileName

/-- A sequence of calls, one after the other, up to the first that does not
return: the return values, the final state and all events. -/
def run (W : World) (fuel : Nat) : State → List Call → Option (Outcome (List Int × State))
  | s, [] => some (Outcome.returned ([], s) [])
  | s, c :: cs =>
    match step W fuel s c with
    | none => none
    | some (Outcome.undefined ev) => some (Outcome.undefined ev)
    | some (Outcome.returned (ret, s1) ev) =>
      match run W fuel s1 cs with
      | none => none
      | some (Outcome.undefined ev2) => some (Outcome.undefined (ev ++ ev2))
      | some (Outcome.returned (rets, s2) ev2) =>
        some (Outcome.returned (ret :: rets, s2) (ev ++ ev2))

/-- Whether the event is a call of `get_camera_frame`. -/
def Event.isAcquire : Event → Bool
  | Event.get_camera_frame _ => true
  | _ => false

/-- Whether the event is a call of `put_camera_frame`. -/
def Event.isRelease : Event → Bool
  | Event.put_camera_frame _ => true
  | _ => false



/-! ## Reference definitions -/

/-- Saturating conversion to a byte, as the specification words it: 0 for every
`x ≤ 0`, 255 for every `x ≥ 255`, otherwise `x` without its fractional part. -/
def clip (x : ℚ) : Nat :=
  if x ≤ 0 then 0 else if x ≥ 255 then 255 else ⌊x⌋.toNat

/-- The RGB bytes of one pixel from its luma and chroma bytes. -/
def rgbOf (y u v : Nat) : List Nat :=
  [toUChar (CLIP (exprR y v)), toUChar (CLIP (exprG y u v)), toUChar (CLIP (exprB y u))]

/-- Group-wise reference conversion: `src` is read as `groups` independent
4-byte groups `[Y0, U, Y1, V]`, each giving two pixels that share `U` and `V`. -/
def convertGroups (groups : Nat) (src : Nat → Nat) : List Nat :=
  (List.range groups).flatMap fun k =>
    rgbOf (src (4 * k)) (src (4 * k + 1)) (src (4 * k + 3))
      ++ rgbOf (src (4 * k + 2)) (src (4 * k + 1)) (src (4 * k + 3))

/-- The pass made for row `r`, column `c` of a frame `w` pixels wide. -/
def passAt (w : Nat) (src : Nat → Nat) (r c : Nat) : Pixel :=
  storePixel src (2 * (r * w + c)) (1 + 4 * (r * (w / 2) + c / 2))
    (3 + 4 * (r * (w / 2) + c / 2)) (3 * (r * w + c))

/-- The pass made for pixel `i` (row `i / w`, column `i % w`). -/
def passOf (w : Nat) (src : Nat → Nat) (i : Nat) : Pixel :=
  storePixel src (2 * i) (1 + 4 * (i / w * (w / 2) + i % w / 2))
    (3 + 4 * (i / w * (w / 2) + i % w / 2)) (3 * i)

/-- The `dst` offset of a store event. -/
def Event.storeOffset : Event → Option Nat
  | Event.store offset _ => some offset
  | _ => none

/-- A 3x2 frame, all bytes 128 except byte 9 (the `U` of the third group). -/
def frame3x2 : Nat → Nat := fun k => if k = 9 then 255 else 128

/-- A 2x1 frame `[Y0, U, Y1, V] = [0, 128, 0, 255]`. -/
def frame2x1 : Nat → Nat := fun k => if k = 3 then 255 else if k = 1 then 128 else 0

/-- A world with a row-consuming compressor in which no file can be opened. -/
def worldNoFile : World :=
  { init_camera := 0, start_camera := 0, close_camera := 0
    get_camera_frame := fun k => k % 4
    userptr := fun _ _ _ => 128
    malloc := fun _ _ => true
    fopen := fun _ => false
    jpeg_write_scanlines := fun n => n + 1 }

/-- A world with a row-consuming compressor in which every file can be opened. -/
def worldOk : World :=
  { init_camera := 0, start_camera := 0, close_camera := 0
    get_camera_frame := fun k => k % 4
    userptr := fun _ _ _ => 128
    malloc := fun _ _ => true
    fopen := fun _ => true
    jpeg_write_scanlines := fun n => n + 1 }

/-- A session of 2x1 frames in which nothing has been captured yet. -/
def state2x1 : State :=
  { width := 2, height := 1, jpegFilename := none, frames := 0 }

/-- A session of 32768x32768 frames, for which `width*height*3` exceeds `int`. -/
def stateHuge : State :=
  { width := 32768, height := 32768, jpegFilename := none, frames := 0 }

/-- The events of a call, however it ended. -/
def Outcome.events {α : Type} : Outcome α → List Event
  | Outcome.returned _ events => events
  | Outcome.undefined events => events

/-- Whether the call returned. -/
def Outcome.isReturned {α : Type} : Outcome α → Bool
  | Outcome.returned _ _ => true
  | Outcome.undefined _ => false

/-! ## The conversion loop in closed form -/

theorem convLine_eq (src : Nat → Nat) (n : Nat) (s : ConvState) :
    (List.range n).foldl (convBody src) s =
      { py := s.py + 2 * n, pu := s.pu + 4 * (n / 2), pv := s.pv + 4 * (n / 2),
        tmp := s.tmp + 3 * n,
        done := s.done ++ (List.range n).map fun c =>
          storePixel src (s.py + 2 * c) (s.pu + 4 * (c / 2)) (s.pv + 4 * (c / 2))
            (s.tmp + 3 * c) } := by
  induction n with
  | zero => simp
  | succ n ih =>
    rw [List.range_succ, List.foldl_append, ih]
    simp only [List.foldl_cons, List.foldl_nil, convBody, Nat.and_one_is_mod, List.map_append,
      List.map_cons, List.map_nil, List.append_assoc]
    rcases Nat.mod_two_eq_zero_or_one n with h | h
    · have h2 : (n + 1) / 2 = n / 2 := by omega
      simp [h, h2]; omega
    · have h2 : (n + 1) / 2 = n / 2 + 1 := by omega
      simp [h, h2]; omega

theorem convRows_eq (w : Nat) (src : Nat → Nat) (h : Nat) :
    (List.range h).foldl (convLine w src) { py := 0, pu := 1, pv := 3, tmp := 0, done := [] } =
      { py := 2 * (h * w), pu := 1 + 4 * (h * (w / 2)), pv := 3 + 4 * (h * (w / 2)),
        tmp := 3 * (h * w),
        done := (List.range h).flatMap fun r => (List.range w).map (passAt w src r) } := by
  induction h with
  | zero => simp
  | succ h ih =>
    rw [List.range_succ, List.foldl_append, ih]
    have e1 : (h + 1) * w = h * w + w := Nat.succ_mul h w
    have e2 : (h + 1) * (w / 2) = h * (w / 2) + w / 2 := Nat.succ_mul h (w / 2)
    simp only [List.foldl_cons, List.foldl_nil, convLine, convLine_eq, List.flatMap_append,
      List.flatMap_cons, List.flatMap_nil, List.append_nil, ConvState.mk.injEq]
    refine ⟨by omega, by omega, by omega, by omega, ?_⟩
    congr 1
    apply List.map_congr_left
    intro c _
    simp only [passAt, storePixel]
    have a1 : 2 * (h * w) + 2 * c = 2 * (h * w + c) := by omega
    have a2 : 1 + 4 * (h * (w / 2)) + 4 * (c / 2) = 1 + 4 * (h * (w / 2) + c / 2) := by omega
    have a3 : 3 + 4 * (h * (w / 2)) + 4 * (c / 2) = 3 + 4 * (h * (w / 2) + c / 2) := by omega
    have a4 : 3 * (h * w) + 3 * c = 3 * (h * w + c) := by omega
    rw [a1, a2, a3, a4]

theorem flatMap_range_rows {α : Type} (w : Nat) (f : Nat → Nat → α) (h : Nat) :
    ((List.range h).flatMap fun r => (List.range w).map (f r)) =
      (List.range (h * w)).map fun i => f (i / w) (i % w) := by
  induction h with
  | zero => simp
  | succ h ih =>
    rw [List.range_succ, List.flatMap_append, ih, Nat.succ_mul, List.range_add, List.map_append]
    simp only [List.flatMap_cons, List.flatMap_nil, List.append_nil, List.map_map]
    congr 1
    apply List.map_congr_left
    intro c hc
    have hc' : c < w := List.mem_range.mp hc
    have hw : 0 < w := by omega
    simp only [Function.comp]
    have e1 : (h * w + c) / w = h := by
      rw [Nat.add_comm, Nat.add_mul_div_right _ _ hw, Nat.div_eq_of_lt hc']; simp
    have e2 : (h * w + c) % w = c := by
      rw [Nat.add_comm, Nat.add_mul_mod_self_right, Nat.mod_eq_of_lt hc']
    rw [e1, e2]

theorem YUV422toRGB888_eq (w h : Nat) (src : Nat → Nat) :
    YUV422toRGB888 w h src = (List.range (h * w)).map (passOf w src) := by
  unfold YUV422toRGB888
  rw [convRows_eq, flatMap_range_rows]
  apply List.map_congr_left
  intro i hi
  have hi' : i < h * w := List.mem_range.mp hi
  have hw : 0 < w := by
    rcases Nat.eq_zero_or_pos w with h0 | h0
    · subst h0; simp at hi'
    · exact h0
  have e : i / w * w + i % w = i := Nat.div_add_mod' i w
  simp only [passAt, passOf, e]

/-! ## Conversion: stores, loads and pixel values -/

theorem flatMap_range_triple (n : Nat) :
    ((List.range n).flatMap fun i => [3 * i, 3 * i + 1, 3 * i + 2]) = List.range (n * 3) := by
  induction n with
  | zero => simp
  | succ n ih =>
    rw [List.range_succ, List.flatMap_append, ih]
    have e : (n + 1) * 3 = n * 3 + 1 + 1 + 1 := by omega
    rw [e, List.range_succ, List.range_succ, List.range_succ]
    have e3 : 3 * n = n * 3 := by omega
    simp [e3]

theorem stores_offsets (w h : Nat) (src : Nat → Nat) :
    (stores (YUV422toRGB888 w h src)).map Prod.fst = List.range (w * h * 3) := by
  rw [YUV422toRGB888_eq, Nat.mul_comm w h, ← flatMap_range_triple]
  simp [stores, List.map_flatMap, List.flatMap_map, passOf, storePixel]

theorem rgb_length_eq (ps : List Pixel) : (rgb ps).length = ps.length * 3 := by
  induction ps with
  | nil => rfl
  | cons p ps ih =>
    simp only [rgb, List.flatMap_cons, List.length_append, List.length_cons, List.length_nil] at ih ⊢
    omega

theorem rgb_length (w h : Nat) (src : Nat → Nat) :
    (rgb (YUV422toRGB888 w h src)).length = w * h * 3 := by
  rw [rgb_length_eq, YUV422toRGB888_eq]
  simp [Nat.mul_comm w h]

theorem passOf_even (w : Nat) (hw : w % 2 = 0) (src : Nat → Nat) (i : Nat) :
    passOf w src i = storePixel src (2 * i) (1 + 4 * (i / 2)) (3 + 4 * (i / 2)) (3 * i) := by
  have key : i / w * (w / 2) + i % w / 2 = i / 2 := by
    have h1 : w * (i / w) + i % w = i := Nat.div_add_mod i w
    have h2 : w * (i / w) = 2 * (i / w * (w / 2)) := by
      have h3 : w = 2 * (w / 2) := by omega
      calc w * (i / w) = 2 * (w / 2) * (i / w) := by rw [← h3]
        _ = 2 * (i / w * (w / 2)) := by ring
    omega
  simp only [passOf, key]

theorem flatMap_range_pairs {α : Type} (g : Nat → List α) (n : Nat) :
    (List.range (2 * n)).flatMap g =
      (List.range n).flatMap fun k => g (2 * k) ++ g (2 * k + 1) := by
  induction n with
  | zero => simp
  | succ n ih =>
    have e : 2 * (n + 1) = 2 * n + 1 + 1 := by omega
    rw [e, List.range_succ, List.range_succ, List.range_succ]
    simp [List.flatMap_append, ih]

theorem rgb_map (f : Nat → Pixel) (l : List Nat) :
    rgb (l.map f) = l.flatMap fun i => [(f i).r, (f i).g, (f i).b] := by
  simp [rgb, List.flatMap_map]

theorem rgb_even (w h : Nat) (hw : w % 2 = 0) (src : Nat → Nat) :
    rgb (YUV422toRGB888 w h src) = convertGroups (w * h / 2) src := by
  have hn : h * w = 2 * (w * h / 2) := by
    have h3 : w = 2 * (w / 2) := by omega
    have h4 : w * h = 2 * (w / 2 * h) := by
      calc w * h = 2 * (w / 2) * h := by rw [← h3]
        _ = 2 * (w / 2 * h) := by ring
    have h5 : h * w = w * h := Nat.mul_comm h w
    omega
  rw [YUV422toRGB888_eq, rgb_map, hn, flatMap_range_pairs]
  unfold convertGroups
  apply List.flatMap_congr
  intro k _
  have a1 : 2 * (2 * k) = 4 * k := by omega
  have a2 : 2 * k / 2 = k := by omega
  have a3 : 2 * (2 * k + 1) = 4 * k + 2 := by omega
  have a4 : (2 * k + 1) / 2 = k := by omega
  have a5 : 1 + 4 * k = 4 * k + 1 := by omega
  have a6 : 3 + 4 * k = 4 * k + 3 := by omega
  simp only [passOf_even w hw, storePixel, rgbOf, a1, a2, a3, a4, a5, a6]

theorem loads_even (w h : Nat) (hw : w % 2 = 0) (src : Nat → Nat) :
    ∀ k ∈ loads (YUV422toRGB888 w h src), k < w * h * 2 := by
  intro k hk
  rw [YUV422toRGB888_eq] at hk
  simp only [loads, List.mem_flatMap, List.mem_map, List.mem_range] at hk
  obtain ⟨p, ⟨i, hi, rfl⟩, hk⟩ := hk
  rw [passOf_even w hw] at hk
  have hn : (h * w) % 2 = 0 := by
    rw [Nat.mul_mod, hw]; simp
  have h5 : h * w = w * h := Nat.mul_comm h w
  simp only [storePixel, List.mem_cons, List.mem_singleton, List.mem_nil_iff, or_false] at hk
  rcases hk with rfl | rfl | rfl <;> omega

theorem toUChar_CLIP (x : ℚ) : toUChar (CLIP x) = clip x := by
  unfold CLIP clip toUChar
  by_cases h1 : x ≥ 255
  · have h2 : ¬ x ≤ 0 := by
      intro h; linarith
    simp only [h1, h2, if_true, if_false]
    norm_num
    rfl
  · by_cases h2 : x ≤ 0
    · simp only [h1, h2, if_true, if_false]
      norm_num
    · simp only [h1, h2, if_false]
      have h3 : 0 ≤ x := by
        push_neg at h2; exact le_of_lt h2
      have h4 : x < 255 := by
        push_neg at h1; exact h1
      simp only [h3, if_true]
      have f0 : 0 ≤ ⌊x⌋ := Int.floor_nonneg.mpr h3
      have f1 : ⌊x⌋ < 255 := Int.floor_lt.mpr (by exact_mod_cast h4)
      rw [Int.emod_eq_of_lt f0 (by omega)]

theorem mem_YUV422toRGB888 (w h : Nat) (src : Nat → Nat) (p : Pixel)
    (hp : p ∈ YUV422toRGB888 w h src) :
    p = storePixel src p.py p.pu p.pv p.tmp := by
  rw [YUV422toRGB888_eq] at hp
  obtain ⟨i, _, rfl⟩ := List.mem_map.mp hp
  rfl

theorem exprR_0_255 : exprR 0 255 = 6264718187904893 / 2 ^ 45 := by decide!
theorem exprR_0_0 : exprR 0 0 = -(6314046677573435 / 2 ^ 45) := by decide!

/-- Where the reads of `YUV422toRGB888` stay inside the buffer: for positive
`width` and `height`, every `src` offset read is below `width*height*2` exactly
when the width is even or there are at least two rows. -/
theorem loads_in_bounds_iff (w h : Nat) (src : Nat → Nat) (hw : 0 < w) (hh : 0 < h) :
    (∀ k ∈ loads (YUV422toRGB888 w h src), k < w * h * 2) ↔ (w % 2 = 0 ∨ 2 ≤ h) := by
  constructor
  · intro hall
    by_contra hcon
    push_neg at hcon
    obtain ⟨hodd, hlt⟩ := hcon
    have h1 : h = 1 := by omega
    subst h1
    have hmem : 2 * w + 1 ∈ loads (YUV422toRGB888 w 1 src) := by
      rw [YUV422toRGB888_eq]
      simp only [loads, List.mem_flatMap, List.mem_map, List.mem_range]
      refine ⟨passOf w src (w - 1), ⟨w - 1, by omega, rfl⟩, ?_⟩
      have e1 : (w - 1) / w = 0 := Nat.div_eq_of_lt (by omega)
      have e2 : (w - 1) % w = w - 1 := Nat.mod_eq_of_lt (by omega)
      simp only [passOf, storePixel, e1, e2, Nat.zero_mul, Nat.zero_add, List.mem_cons,
        List.mem_singleton, List.mem_nil_iff, or_false]
      right; right
      omega
    have := hall _ hmem
    omega
  · intro hcase
    rcases Nat.mod_two_eq_zero_or_one w with hev | hodd
    · exact loads_even w h hev src
    · have h2 : 2 ≤ h := by
        rcases hcase with h0 | h0
        · omega
        · exact h0
      intro k hk
      rw [YUV422toRGB888_eq] at hk
      simp only [loads, List.mem_flatMap, List.mem_map, List.mem_range] at hk
      obtain ⟨p, ⟨i, hi, rfl⟩, hk⟩ := hk
      have hr : i / w < h := (Nat.div_lt_iff_lt_mul hw).mpr hi
      have hc : i % w < w := Nat.mod_lt i hw
      have hA : (i / w + 1) * (w / 2) ≤ h * (w / 2) := Nat.mul_le_mul_right _ hr
      have hA' : (i / w + 1) * (w / 2) = i / w * (w / 2) + w / 2 := Nat.succ_mul _ _
      have hW : w * h = 2 * (h * (w / 2)) + h := by
        have h3 : w = 2 * (w / 2) + 1 := by omega
        calc w * h = (2 * (w / 2) + 1) * h := by rw [← h3]
          _ = 2 * (h * (w / 2)) + h := by ring
      have h5 : h * w = w * h := Nat.mul_comm h w
      simp only [passOf, storePixel, List.mem_cons, List.mem_singleton, List.mem_nil_iff,
        or_false] at hk
      rcases hk with rfl | rfl | rfl <;> omega

/-! ## Rounding error of the binary64 operations -/

theorem feedLoop_rows (W : World) (hW : ∀ n, W.jpeg_write_scanlines n = n + 1) (w h c : Nat) :
    ∀ fuel n, h - n ≤ fuel →
      feedLoop W w h c fuel n =
        some ((List.range' n (h - n)).map fun k =>
          Event.jpeg_write_scanlines (k * w * c % 2 ^ 32) 1) := by
  intro fuel
  induction fuel with
  | zero =>
    intro n hn
    have h0 : h - n = 0 := by omega
    have h1 : ¬ n < h := by omega
    simp [feedLoop, h0, h1]
  | succ fuel ih =>
    intro n hn
    by_cases h1 : n < h
    · have h2 : h - n = (h - (n + 1)) + 1 := by omega
      have h3 := ih (n + 1) (by omega)
      simp only [feedLoop, h1, if_true, hW, h3, Option.map_some']
      rw [h2, List.range'_succ]
      simp
    · have h0 : h - n = 0 := by omega
      simp [feedLoop, h0, h1]

theorem feedLoop_rows_zero (W : World) (hW : ∀ n, W.jpeg_write_scanlines n = n + 1)
    (w h c fuel : Nat) (hfuel : h ≤ fuel) :
    feedLoop W w h c fuel 0 =
      some ((List.range h).map fun k => Event.jpeg_write_scanlines (k * w * c % 2 ^ 32) 1) := by
  rw [feedLoop_rows W hW w h c fuel 0 (by omega), List.range_eq_range']
  rfl

theorem feedLoop_events (W : World) (w h c : Nat) :
    ∀ fuel n l, feedLoop W w h c fuel n = some l →
      ∀ e ∈ l, ∃ row, e = Event.jpeg_write_scanlines row 1 := by
  intro fuel
  induction fuel with
  | zero =>
    intro n l hl e he
    unfold feedLoop at hl
    split at hl
    · cases hl
    · cases hl
      cases he
  | succ fuel ih =>
    intro n l hl e he
    unfold feedLoop at hl
    split at hl
    · cases hrec : feedLoop W w h c fuel (W.jpeg_write_scanlines n) with
      | none => rw [hrec] at hl; cases hl
      | some l1 =>
        rw [hrec] at hl
        simp only [Option.map_some', Option.some.injEq] at hl
        subst hl
        rcases List.mem_cons.mp he with rfl | he1
        · exact ⟨_, rfl⟩
        · exact ih _ _ hrec e he1
    · cases hl
      cases he

theorem jpegWrite_eq (W : World) (fuel w h : Nat) (path : Path) (o : Outcome Unit)
    (ho : jpegWrite W fuel w h path = some o) :
    ∃ feed, feedLoop W w h 3 fuel 0 = some feed ∧
      o.events = [Event.fopen path (W.fopen path)]
        ++ (if !W.fopen path then [Event.printf_fopen_error] else [])
        ++ [Event.jpeg_std_error, Event.jpeg_create_compress, Event.jpeg_stdio_dest (W.fopen path),
            Event.jpeg_set_defaults, Event.jpeg_set_quality jpegQuality,
            Event.jpeg_start_compress]
        ++ feed
        ++ [Event.jpeg_finish_compress, Event.jpeg_destroy_compress,
            Event.fclose (W.fopen path)] ∧
      (o = Outcome.returned () o.events ∧ W.fopen path = true ∨
        o = Outcome.undefined o.events ∧ W.fopen path = false) := by
  unfold jpegWrite at ho
  cases hf : feedLoop W w h 3 fuel 0 with
  | none => rw [hf] at ho; cases ho
  | some feed =>
    rw [hf] at ho
    simp only [Option.map_some', Option.some.injEq] at ho
    subst ho
    refine ⟨feed, rfl, ?_, ?_⟩
    · cases W.fopen path <;> rfl
    · cases hopen : W.fopen path
      · right; exact ⟨rfl, rfl⟩
      · left; exact ⟨rfl, rfl⟩

theorem jpegWrite_quiet (W : World) (fuel w h : Nat) (path : Path) (o : Outcome Unit)
    (ho : jpegWrite W fuel w h path = some o) :
    ∀ e ∈ o.events, e.isAcquire = false ∧ e.isRelease = false ∧ e.storeOffset = none := by
  obtain ⟨feed, hfeed, hev, _⟩ := jpegWrite_eq W fuel w h path o ho
  intro e he
  rw [hev] at he
  simp only [List.mem_append, List.mem_cons, List.mem_singleton, List.mem_nil_iff, or_false] at he
  rcases he with (((he | he) | he) | he) | he
  · subst he; exact ⟨rfl, rfl, rfl⟩
  · split at he
    · simp only [List.mem_singleton] at he; subst he; exact ⟨rfl, rfl, rfl⟩
    · cases he
  · rcases he with rfl | rfl | rfl | rfl | rfl | rfl <;> exact ⟨rfl, rfl, rfl⟩
  · obtain ⟨row, rfl⟩ := feedLoop_events W w h 3 fuel 0 feed hfeed e he
    exact ⟨rfl, rfl, rfl⟩
  · rcases he with rfl | rfl | rfl <;> exact ⟨rfl, rfl, rfl⟩

theorem pixelEvents_quiet (b : Int) (ps : List Pixel) :
    ∀ e ∈ ps.flatMap (pixelEvents b), e.isAcquire = false ∧ e.isRelease = false := by
  intro e he
  obtain ⟨p, _, hp⟩ := List.mem_flatMap.mp he
  simp only [pixelEvents, List.mem_cons, List.mem_singleton, List.mem_nil_iff, or_false] at hp
  rcases hp with rfl | rfl | rfl | rfl | rfl | rfl | rfl | rfl | rfl | rfl <;> exact ⟨rfl, rfl⟩

theorem pixelEvents_storeOffsets (b : Int) (ps : List Pixel) :
    (ps.flatMap (pixelEvents b)).filterMap Event.storeOffset = (stores ps).map Prod.fst := by
  induction ps with
  | nil => rfl
  | cons p ps ih =>
    simp only [List.flatMap_cons, List.filterMap_append, ih, stores, List.map_append]
    rfl

theorem filterMap_eq_nil_of_forall {α β : Type} (f : α → Option β) (l : List α)
    (h : ∀ e ∈ l, f e = none) : l.filterMap f = [] := by
  induction l with
  | nil => rfl
  | cons a l ih =>
    have ha : f a = none := h a (List.mem_cons_self a l)
    have hl : ∀ e ∈ l, f e = none := fun e he => h e (List.mem_cons_of_mem a he)
    simp [List.filterMap_cons, ha, ih hl]

theorem getframe_events (W : World) (s : State) :
    ∃ mid, (cammodule_getframe W s).2.2.2 =
        Event.get_camera_frame (W.get_camera_frame s.frames) ::
          (mid ++ [Event.put_camera_frame (W.get_camera_frame s.frames)]) ∧
      ∀ e ∈ mid, e.isAcquire = false ∧ e.isRelease = false := by
  refine ⟨(List.range (s.height * s.width * 2)).map
    (Event.load (W.get_camera_frame s.frames)), ?_, ?_⟩
  · simp [cammodule_getframe]
  · intro e he
    obtain ⟨k, _, rfl⟩ := List.mem_map.mp he
    exact ⟨rfl, rfl⟩

theorem saveframe_returned (W : World) (fuel : Nat) (s : State) (fileName : Path)
    (out : Int × State) (ev : List Event)
    (hout : cammodule_saveframe W fuel s fileName = some (Outcome.returned out ev)) :
    s.width * s.height * 3 < 2 ^ 31 ∧ W.fopen fileName = true ∧
    (0 < s.width * s.height → W.malloc s.frames (s.width * s.height * 3) = true) ∧
    out = (0, { s with jpegFilename := some fileName, frames := s.frames + 1 }) ∧
    ∃ written, jpegWrite W fuel s.width s.height fileName = some (Outcome.returned () written) ∧
      ev = [Event.get_camera_frame (W.get_camera_frame s.frames),
            Event.malloc (s.width * s.height * 3) (W.malloc s.frames (s.width * s.height * 3))]
          ++ (YUV422toRGB888 s.width s.height
                (W.userptr s.frames (W.get_camera_frame s.frames))).flatMap
              (pixelEvents (W.get_camera_frame s.frames))
          ++ written
          ++ [Event.put_camera_frame (W.get_camera_frame s.frames)] := by
  unfold cammodule_saveframe at hout
  simp only at hout
  split at hout
  · cases hout
  · rename_i hsize
    split at hout
    · cases hout
    · rename_i hdst
      split at hout
      · cases hout
      · cases hout
      · rename_i u written hj
        simp only [Option.some.injEq, Outcome.returned.injEq] at hout
        obtain ⟨h1, h2⟩ := hout
        obtain ⟨feed, _, _, hcase⟩ := jpegWrite_eq W fuel s.width s.height fileName _ hj
        have hopen : W.fopen fileName = true := by
          rcases hcase with ⟨_, h⟩ | ⟨h, _⟩
          · exact h
          · cases h
        have hm : 0 < s.width * s.height →
            W.malloc s.frames (s.width * s.height * 3) = true := by
          intro hpos
          cases hmal : W.malloc s.frames (s.width * s.height * 3)
          · exact absurd ⟨hmal, hpos⟩ hdst
          · rfl
        exact ⟨by omega, hopen, hm, h1.symm, written, hj, h2.symm⟩

theorem saveframe_events (W : World) (fuel : Nat) (s : State) (fileName : Path)
    (out : Int × State) (ev : List Event)
    (hout : cammodule_saveframe W fuel s fileName = some (Outcome.returned out ev)) :
    ∃ mid, ev =
        Event.get_camera_frame (W.get_camera_frame s.frames) ::
          (mid ++ [Event.put_camera_frame (W.get_camera_frame s.frames)]) ∧
      ∀ e ∈ mid, e.isAcquire = false ∧ e.isRelease = false := by
  obtain ⟨_, _, _, _, written, hw, rfl⟩ := saveframe_returned W fuel s fileName out ev hout
  refine ⟨Event.malloc (s.width * s.height * 3) (W.malloc s.frames (s.width * s.height * 3)) ::
    ((YUV422toRGB888 s.width s.height
        (W.userptr s.frames (W.get_camera_frame s.frames))).flatMap
      (pixelEvents (W.get_camera_frame s.frames)) ++ written), ?_, ?_⟩
  · simp
  · intro e he
    rcases List.mem_cons.mp he with rfl | he
    · exact ⟨rfl, rfl⟩
    · rcases List.mem_append.mp he with he | he
      · exact pixelEvents_quiet _ _ e he
      · have := jpegWrite_quiet W fuel s.width s.height fileName _ hw e he
        exact ⟨this.1, this.2.1⟩

theorem countP_capture (b : Int) (mid : List Event)
    (hmid : ∀ e ∈ mid, e.isAcquire = false ∧ e.isRelease = false) :
    (Event.get_camera_frame b :: (mid ++ [Event.put_camera_frame b])).countP Event.isAcquire = 1 ∧
    (Event.get_camera_frame b :: (mid ++ [Event.put_camera_frame b])).countP Event.isRelease = 1 := by
  have hm1 : mid.countP Event.isAcquire = 0 := by
    rw [List.countP_eq_zero]
    intro e he
    simp [(hmid e he).1]
  have hm2 : mid.countP Event.isRelease = 0 := by
    rw [List.countP_eq_zero]
    intro e he
    simp [(hmid e he).2]
  constructor
  · simp [List.countP_cons, List.countP_append, hm1, Event.isAcquire]
  · simp [List.countP_cons, List.countP_append, hm2, Event.isRelease]

theorem step_capture_events (W : World) (fuel : Nat) (s : State) (c : Call)
    (hc : c.isCapture = true) (out : Int × State) (ev : List Event)
    (hout : step W fuel s c = some (Outcome.returned out ev)) :
    out.1 = 0 ∧ out.2.height = s.height ∧
      ∃ mid, ev =
        Event.get_camera_frame (W.get_camera_frame s.frames) ::
          (mid ++ [Event.put_camera_frame (W.get_camera_frame s.frames)]) ∧
      ∀ e ∈ mid, e.isAcquire = false ∧ e.isRelease = false := by
  cases c with
  | init w h => cases hc
  | start => cases hc
  | stop => cases hc
  | getframe =>
    simp only [step, Option.some.injEq, Outcome.returned.injEq] at hout
    obtain ⟨h1, h2⟩ := hout
    subst h1 h2
    exact ⟨rfl, rfl, getframe_events W s⟩
  | saveframe fileName =>
    simp only [step] at hout
    obtain ⟨_, _, _, h, _⟩ := saveframe_returned W fuel s fileName out ev hout
    refine ⟨?_, ?_, saveframe_events W fuel s fileName out ev hout⟩
    · rw [h]
    · rw [h]

/-- Capture calls that all return: as many `get_camera_frame` as
`put_camera_frame` calls, one of each per call, and every return value 0. -/
theorem run_capture_counts (W : World) (fuel : Nat) :
    ∀ (calls : List Call) (s : State) (out : List Int × State) (ev : List Event),
      (∀ c ∈ calls, c.isCapture = true) →
      run W fuel s calls = some (Outcome.returned out ev) →
      ev.countP Event.isAcquire = calls.length ∧
      ev.countP Event.isRelease = calls.length ∧
      ∀ ret ∈ out.1, ret = 0 := by
  intro calls
  induction calls with
  | nil =>
    intro s out ev _ hout
    simp only [run, Option.some.injEq, Outcome.returned.injEq] at hout
    obtain ⟨h1, h2⟩ := hout
    subst h1 h2
    simp
  | cons c cs ih =>
    intro s out ev hcap hout
    unfold run at hout
    split at hout
    · cases hout
    · cases hout
    · rename_i ret s1 ev1 hstep
      split at hout
      · cases hout
      · cases hout
      · rename_i rets s2 ev2 hrest
        simp only [Option.some.injEq, Outcome.returned.injEq] at hout
        obtain ⟨h1, h2⟩ := hout
        subst h1 h2
        have h1 := step_capture_events W fuel s c (hcap c (List.mem_cons_self c cs)) _ _ hstep
        obtain ⟨hret, _, mid, hev, hmid⟩ := h1
        simp only at hret
        have h2 := ih s1 (rets, s2) ev2 (fun c' hc' => hcap c' (List.mem_cons_of_mem c hc')) hrest
        have h3 := countP_capture (W.get_camera_frame s.frames) mid hmid
        rw [← hev] at h3
        refine ⟨?_, ?_, ?_⟩
        · simp only [List.countP_append, h3.1, h2.1, List.length_cons]; omega
        · simp only [List.countP_append, h3.2, h2.2.1, List.length_cons]; omega
        · intro r hr
          rcases List.mem_cons.mp hr with rfl | hr
          · exact hret
          · exact h2.2.2 r hr

theorem jpegWrite_exists (W : World) (hW : ∀ n, W.jpeg_write_scanlines n = n + 1)
    (fuel w h : Nat) (hfuel : h ≤ fuel) (path : Path) :
    ∃ jo, jpegWrite W fuel w h path = some jo := by
  unfold jpegWrite
  rw [feedLoop_rows_zero W hW w h 3 fuel hfuel]
  exact ⟨_, rfl⟩

/-- The events of `cammodule_saveframe` when the size fits an `int` and `malloc`
yields a buffer, whether or not `jpegWrite` returns. -/
theorem saveframe_outcome (W : World) (fuel : Nat) (s : State) (fileName : Path)
    (hsize : s.width * s.height * 3 < 2 ^ 31)
    (hmalloc : W.malloc s.frames (s.width * s.height * 3) = true)
    (jo : Outcome Unit) (hjo : jpegWrite W fuel s.width s.height fileName = some jo) :
    ∃ o, cammodule_saveframe W fuel s fileName = some o ∧
      o.isReturned = jo.isReturned ∧
      o.events =
        [Event.get_camera_frame (W.get_camera_frame s.frames),
            Event.malloc (s.width * s.height * 3) true]
          ++ (YUV422toRGB888 s.width s.height
                (W.userptr s.frames (W.get_camera_frame s.frames))).flatMap
              (pixelEvents (W.get_camera_frame s.frames))
          ++ jo.events
          ++ (if jo.isReturned then
                [Event.put_camera_frame (W.get_camera_frame s.frames)] else []) := by
  have h1 : ¬ 2 ^ 31 ≤ s.width * s.height * 3 := by omega
  cases jo with
  | returned u written =>
    refine ⟨Outcome.returned
      (0, { s with jpegFilename := some fileName, frames := s.frames + 1 })
      ([Event.get_camera_frame (W.get_camera_frame s.frames),
            Event.malloc (s.width * s.height * 3) true]
          ++ (YUV422toRGB888 s.width s.height
                (W.userptr s.frames (W.get_camera_frame s.frames))).flatMap
              (pixelEvents (W.get_camera_frame s.frames))
          ++ written
          ++ [Event.put_camera_frame (W.get_camera_frame s.frames)]), ?_, rfl, ?_⟩
    · simp [cammodule_saveframe, hmalloc, hjo]
      omega
    · simp [Outcome.events, Outcome.isReturned]
  | undefined written =>
    refine ⟨Outcome.undefined
      ([Event.get_camera_frame (W.get_camera_frame s.frames),
            Event.malloc (s.width * s.height * 3) true]
          ++ (YUV422toRGB888 s.width s.height
                (W.userptr s.frames (W.get_camera_frame s.frames))).flatMap
              (pixelEvents (W.get_camera_frame s.frames))
          ++ written), ?_, rfl, ?_⟩
    · simp [cammodule_saveframe, hmalloc, hjo]
      omega
    · simp [Outcome.events, Outcome.isReturned]

theorem saveframe_some_jpegWrite (W : World) (fuel : Nat) (s : State) (fileName : Path)
    (hsize : s.width * s.height * 3 < 2 ^ 31)
    (hmalloc : W.malloc s.frames (s.width * s.height * 3) = true)
    (o : Outcome (Int × State)) (ho : cammodule_saveframe W fuel s fileName = some o) :
    ∃ jo, jpegWrite W fuel s.width s.height fileName = some jo := by
  cases hj : jpegWrite W fuel s.width s.height fileName with
  | some jo => exact ⟨jo, rfl⟩
  | none =>
    have h1 : ¬ 2 ^ 31 ≤ s.width * s.height * 3 := by omega
    simp [cammodule_saveframe, hmalloc, hj] at ho
    omega

/-! ## Properties of the conversion -/

/-- C2: on a 3x2 frame the pass for pixel 4 (row 1, column 1) reads `Y` at
offset 8 but `U` and `V` at offsets 5 and 7, not at offsets 9 and 11 of the
group `[Y0, U, Y1, V]` that holds byte 8.  With byte 9 equal to 255 and every
other byte 128 it stores `(128, 128, 128)`, where the chroma of the pixel's own
group gives `(128, 84, 255)`. -/
theorem YUV422toRGB888_odd_width_chroma :
    (YUV422toRGB888 3 2 frame3x2)[4]? =
        some { py := 8, pu := 5, pv := 7, tmp := 12, r := 128, g := 128, b := 128 } ∧
      storePixel frame3x2 (2 * 4) (4 * (4 / 2) + 1) (4 * (4 / 2) + 3) (3 * 4) =
        { py := 8, pu := 9, pv := 11, tmp := 12, r := 128, g := 84, b := 255 } := by
  decide!

/-- C5: on a 1x1 frame, a buffer of 2 bytes, the single pass reads the `src`
offsets 0, 1 and 3; offset 3 lies outside the buffer. -/
theorem YUV422toRGB888_1x1_reads_offset_3 (src : Nat → Nat) :
    loads (YUV422toRGB888 1 1 src) = [0, 1, 3] ∧ ¬ (3 < 1 * 1 * 2) := by
  constructor
  · rfl
  · decide

/-- C9 as stated fails: with `Y = 0`, `V = 255` the value `Y + 1.402*(V-128)` is
not negative, and on the 2x1 frame `[0, 128, 0, 255]` the `R` bytes stored are
178. -/
theorem red_of_Y0_V255_not_clipped :
    ¬ (fadd (0 : Nat) (fmul c1402 (fsub (255 : Nat) 128)) < 0) ∧
      (YUV422toRGB888 2 1 frame2x1).map (fun p => p.r) = [178, 178] := by
  decide!

/-- C9 (amended): for a pass that reads `Y = 0`, the value `Y + 1.402*(V-128)`
is positive and the `R` byte stored is 178 when `V = 255`; the value is negative
and the `R` byte stored is exactly 0 when `V = 0`. -/
theorem YUV422toRGB888_red_at_zero_luma (width height : Nat) (src : Nat → Nat) (p : Pixel)
    (hp : p ∈ YUV422toRGB888 width height src) (hy : src p.py = 0) :
    (src p.pv = 255 →
      0 < fadd (src p.py) (fmul c1402 (fsub (src p.pv) 128)) ∧ p.r = 178) ∧
    (src p.pv = 0 →
      fadd (src p.py) (fmul c1402 (fsub (src p.pv) 128)) < 0 ∧ p.r = 0) := by
  have e := mem_YUV422toRGB888 width height src p hp
  have er : p.r = clip (exprR (src p.py) (src p.pv)) := by
    rw [← toUChar_CLIP]
    exact congrArg Pixel.r e
  constructor
  · intro hv
    rw [er, hy, hv]
    change 0 < exprR 0 255 ∧ clip (exprR 0 255) = 178
    rw [exprR_0_255]
    refine ⟨by norm_num, ?_⟩
    unfold clip
    have hf : ⌊(6264718187904893 / 2 ^ 45 : ℚ)⌋ = 178 := by
      rw [Int.floor_eq_iff]
      constructor <;> norm_num
    rw [hf]
    norm_num
    rfl
  · intro hv
    rw [er, hy, hv]
    change exprR 0 0 < 0 ∧ clip (exprR 0 0) = 0
    rw [exprR_0_0]
    refine ⟨by norm_num, ?_⟩
    unfold clip
    norm_num

/-- C9 (amended) at the first pixel of the 2x1 frame `[0, 128, 0, 255]`. -/
theorem YUV422toRGB888_red_at_zero_luma_witness :
    ({ py := 0, pu := 1, pv := 3, tmp := 0, r := 178, g := 0, b := 0 } : Pixel)
        ∈ YUV422toRGB888 2 1 frame2x1 ∧
      (178 : Nat) = 178 := by
  have hp : ({ py := 0, pu := 1, pv := 3, tmp := 0, r := 178, g := 0, b := 0 } : Pixel)
      ∈ YUV422toRGB888 2 1 frame2x1 := by decide!
  exact ⟨hp, ((YUV422toRGB888_red_at_zero_luma 2 1 frame2x1 _ hp (by decide)).1 (by decide)).2⟩

/-- C3: with an output file that cannot be opened, a run of three capture calls
ends in the first one: `cammodule_saveframe` calls `get_camera_frame`, goes
through `jpegWrite` with the null stream and does not return from
`fclose(NULL)`, so `put_camera_frame` is never called: one acquire, no release.
With files that open, the same three calls return after three acquires and
three releases. -/
theorem saveframe_unopened_file_never_releases :
    (run worldNoFile 1 state2x1 [Call.saveframe 7, Call.getframe, Call.saveframe 8]).map
        (fun o => (o.isReturned, o.events.countP Event.isAcquire,
          o.events.countP Event.isRelease)) = some (false, 1, 0) ∧
    (run worldOk 1 state2x1 [Call.saveframe 7, Call.getframe, Call.saveframe 8]).map
        (fun o => (o.isReturned, o.events.countP Event.isAcquire,
          o.events.countP Event.isRelease)) = some (true, 3, 3) := by
  decide!

/-- C4 as stated fails: on a session of 32768x32768 frames the `int` product
`width*height*3` of `cammodule_saveframe` overflows; no buffer of
`width*height*3` bytes is obtained and nothing is stored. -/
theorem saveframe_size_overflows_int :
    2 ^ 31 ≤ stateHuge.width * stateHuge.height * 3 ∧
    cammodule_saveframe worldOk 32768 stateHuge 7 =
      some (Outcome.undefined [Event.get_camera_frame 0]) := by
  decide!

/-- C4 (amended): for every width and height `YUV422toRGB888` stores to the
`dst` offsets `0, 1, ..., width*height*3 - 1`, each once, in increasing order,
and to no other offset, so it produces `width*height*3` bytes.  In every call
of `cammodule_saveframe` for which `width*height*3` is below `2^31` and
`malloc` yields a buffer, exactly these stores are made after `malloc` and
before the first event of `jpegWrite`, which makes no store; the release
follows when the file opened.  Such a call has an outcome whenever the
compressor consumes the row it is given. -/
theorem YUV422toRGB888_fills_rgb_buffer (width height : Nat) (src : Nat → Nat) :
    (stores (YUV422toRGB888 width height src)).map Prod.fst = List.range (width * height * 3) ∧
    (rgb (YUV422toRGB888 width height src)).length = width * height * 3 ∧
    (∀ (W : World) (fuel : Nat) (s : State) (fileName : Path) (o : Outcome (Int × State)),
      cammodule_saveframe W fuel s fileName = some o →
      s.width * s.height * 3 < 2 ^ 31 →
      W.malloc s.frames (s.width * s.height * 3) = true →
      ∃ jo conv,
        jpegWrite W fuel s.width s.height fileName = some jo ∧
        o.isReturned = W.fopen fileName ∧
        o.events =
          [Event.get_camera_frame (W.get_camera_frame s.frames),
              Event.malloc (s.width * s.height * 3) true]
            ++ conv ++ jo.events
            ++ (if W.fopen fileName then
                  [Event.put_camera_frame (W.get_camera_frame s.frames)] else []) ∧
        conv.filterMap Event.storeOffset = List.range (s.width * s.height * 3) ∧
        jo.events.filterMap Event.storeOffset = []) ∧
    (∀ (W : World) (fuel : Nat) (s : State) (fileName : Path),
      s.width * s.height * 3 < 2 ^ 31 →
      W.malloc s.frames (s.width * s.height * 3) = true →
      (∀ n, W.jpeg_write_scanlines n = n + 1) → s.height ≤ fuel →
      (cammodule_saveframe W fuel s fileName).isSome = true) := by
  refine ⟨stores_offsets width height src, rgb_length width height src, ?_, ?_⟩
  · intro W fuel s fileName o ho hsize hmalloc
    obtain ⟨jo, hjo⟩ := saveframe_some_jpegWrite W fuel s fileName hsize hmalloc o ho
    obtain ⟨o', ho', hret, hev⟩ := saveframe_outcome W fuel s fileName hsize hmalloc jo hjo
    have hoo : o = o' := by
      rw [ho] at ho'
      exact Option.some.inj ho'
    subst hoo
    obtain ⟨_, _, _, hcase⟩ := jpegWrite_eq W fuel s.width s.height fileName jo hjo
    have hjret : jo.isReturned = W.fopen fileName := by
      rcases hcase with ⟨h1, h2⟩ | ⟨h1, h2⟩
      · rw [h1, h2]; rfl
      · rw [h1, h2]; rfl
    refine ⟨jo, (YUV422toRGB888 s.width s.height
        (W.userptr s.frames (W.get_camera_frame s.frames))).flatMap
      (pixelEvents (W.get_camera_frame s.frames)), hjo, by rw [hret, hjret], ?_, ?_, ?_⟩
    · rw [hev, hjret]
    · rw [pixelEvents_storeOffsets, stores_offsets]
    · exact filterMap_eq_nil_of_forall _ _
        (fun e he => (jpegWrite_quiet W fuel s.width s.height fileName _ hjo e he).2.2)
  · intro W fuel s fileName hsize hmalloc hW hfuel
    obtain ⟨jo, hjo⟩ := jpegWrite_exists W hW fuel s.width s.height hfuel fileName
    obtain ⟨o, ho, _, _⟩ := saveframe_outcome W fuel s fileName hsize hmalloc jo hjo
    rw [ho]
    rfl

/-- C4 (amended) on a 2x1 session whose output file opens: the call returns,
and its events are the acquire, `malloc(6)`, conversion events with stores to
the offsets `0 .. 5`, the events of `jpegWrite` and the release. -/
theorem YUV422toRGB888_fills_rgb_buffer_witness :
    state2x1.width * state2x1.height * 3 < 2 ^ 31 ∧
    worldOk.malloc state2x1.frames (state2x1.width * state2x1.height * 3) = true ∧
    (∀ n, worldOk.jpeg_write_scanlines n = n + 1) ∧ state2x1.height ≤ 1 ∧
    ∃ (o : Outcome (Int × State)) (jo : Outcome Unit) (conv : List Event),
      cammodule_saveframe worldOk 1 state2x1 7 = some o ∧
      o.isReturned = true ∧
      o.events = [Event.get_camera_frame 0, Event.malloc 6 true] ++ conv ++ jo.events
        ++ [Event.put_camera_frame 0] ∧
      conv.filterMap Event.storeOffset = List.range 6 ∧
      jo.events.filterMap Event.storeOffset = [] := by
  have h := YUV422toRGB888_fills_rgb_buffer 2 1 frame2x1
  obtain ⟨o, ho⟩ := Option.isSome_iff_exists.mp
    (h.2.2.2 worldOk 1 state2x1 7 (by decide) rfl (fun _ => rfl) (by decide))
  obtain ⟨jo, conv, _, hret, hev, hconv, hjo⟩ :=
    h.2.2.1 worldOk 1 state2x1 7 o ho (by decide) rfl
  exact ⟨by decide, rfl, fun _ => rfl, by decide, o, jo, conv, ho, hret, hev, hconv, hjo⟩

/-- C10: for every even width, `YUV422toRGB888` reads only `src` offsets below
`width*height*2`; pass `i` reads `Y = src[2i]`, `U = src[4*(i/2)+1]`,
`V = src[4*(i/2)+3]`; the RGB buffer equals the group-wise reference conversion
of the `width*height/2` groups, and equals the conversion of the same buffer as
a single row of `width*height` pixels. -/
theorem YUV422toRGB888_even_width_groupwise (width height : Nat) (src : Nat → Nat)
    (hw : width % 2 = 0) :
    (∀ k ∈ loads (YUV422toRGB888 width height src), k < width * height * 2) ∧
    YUV422toRGB888 width height src =
      (List.range (width * height)).map
        (fun i => storePixel src (2 * i) (4 * (i / 2) + 1) (4 * (i / 2) + 3) (3 * i)) ∧
    rgb (YUV422toRGB888 width height src) = convertGroups (width * height / 2) src ∧
    rgb (YUV422toRGB888 width height src) = rgb (YUV422toRGB888 (width * height) 1 src) := by
  refine ⟨loads_even width height hw src, ?_, rgb_even width height hw src, ?_⟩
  · rw [YUV422toRGB888_eq, Nat.mul_comm height width]
    apply List.map_congr_left
    intro i _
    rw [passOf_even width hw, Nat.add_comm 1, Nat.add_comm 3]
  · have hwh : (width * height) % 2 = 0 := by
      rw [Nat.mul_mod, hw]; simp
    rw [rgb_even width height hw src, rgb_even (width * height) 1 hwh src, Nat.mul_one]

/-- C10 on the 2x1 frame `[0, 128, 0, 255]`. -/
theorem YUV422toRGB888_even_width_groupwise_witness :
    2 % 2 = 0 ∧
      rgb (YUV422toRGB888 2 1 frame2x1) = convertGroups (2 * 1 / 2) frame2x1 :=
  ⟨by decide, (YUV422toRGB888_even_width_groupwise 2 1 frame2x1 (by decide)).2.2.1⟩

/-- C7: when `fopen` yields no stream, `jpegWrite` prints its error message and
then makes every compressor call with the null stream, up to `fclose` of the
null stream, from which the call does not return: no result, success or
failure, reaches the caller of `cammodule_saveframe`.  Shown on a 2x1 session
of gray frames. -/
theorem saveframe_unopened_file_still_encodes :
    worldNoFile.fopen 7 = false ∧
    cammodule_saveframe worldNoFile 1 state2x1 7 =
      some (Outcome.undefined
        [Event.get_camera_frame 0, Event.malloc 6 true,
          Event.load 0 0, Event.load 0 3, Event.store 0 128,
          Event.load 0 0, Event.load 0 1, Event.load 0 3, Event.store 1 128,
          Event.load 0 0, Event.load 0 1, Event.store 2 128,
          Event.load 0 2, Event.load 0 3, Event.store 3 128,
          Event.load 0 2, Event.load 0 1, Event.load 0 3, Event.store 4 128,
          Event.load 0 2, Event.load 0 1, Event.store 5 128,
          Event.fopen 7 false, Event.printf_fopen_error,
          Event.jpeg_std_error, Event.jpeg_create_compress, Event.jpeg_stdio_dest false,
          Event.jpeg_set_defaults, Event.jpeg_set_quality 70, Event.jpeg_start_compress,
          Event.jpeg_write_scanlines 0 1,
          Event.jpeg_finish_compress, Event.jpeg_destroy_compress, Event.fclose false]) := by
  decide!

end Cammodule
